import Mathlib

/-!
Verification development for the PlaylistRX playlist-curation program
(`PlaylistRX.py`).  The definitions below are shallow embeddings of the
program's functions: weights are exact rationals, track identifiers and
names are strings, the remote service and the random source are explicit
parameters.
-/

/-! ## Weighted curation: the per-track weight -/

/-- The weight computed inside `SpotifyRadio.generateRadio`
(`removeByWeight` branch): start at 10, deduct by overplay count and by
top-rank bucket, then clamp with `max(0, min(10, weight))`. -/
def radioWeight (tmCount : Nat) (pos : Option Nat) (m : ℚ) : ℚ :=
  let w : ℚ := 10
  let w :=
    if tmCount = 1 then w - 5 * m
    else if tmCount = 2 then w - 7 * m
    else if 3 ≤ tmCount then w - 9 * m
    else w
  let w :=
    match pos with
    | none => w
    | some p =>
      if p < 50 then w - 5 * m
      else if p < 100 then w - 4 * m
      else if p < 200 then w - 3 * m
      else w
  max 0 (min 10 w)

/-- The base weight computed in the master-curation loop of `main`:
identical deductions to the radio path, but the code applies no clamp
before the random draw. -/
def masterWeight (count : Nat) (pos : Option Nat) (m : ℚ) : ℚ :=
  let w : ℚ := 10
  let w :=
    if count = 1 then w - 5 * m
    else if count = 2 then w - 7 * m
    else if 3 ≤ count then w - 9 * m
    else w
  match pos with
  | none => w
  | some p =>
    if p < 50 then w - 5 * m
    else if p < 100 then w - 4 * m
    else if p < 200 then w - 3 * m
    else w

/-- The weight formula exactly as the specification words it: start at 10,
subtract the overplay deduction and the rank deduction, and clamp the
result to [0, 10].  Used to compare the code's two paths against the
spec's description. -/
def specBaseWeight (c : Nat) (r : Option Nat) (m : ℚ) : ℚ :=
  10 -
    (if c = 1 then 5 * m else if c = 2 then 7 * m else if 3 ≤ c then 9 * m else 0) -
    (match r with
     | none => 0
     | some p =>
       if p < 50 then 5 * m
       else if p < 100 then 4 * m
       else if p < 200 then 3 * m
       else 0)

/-- Spec formula with the clamp to [0, 10]. -/
def specClampedWeight (c : Nat) (r : Option Nat) (m : ℚ) : ℚ :=
  max 0 (min 10 (specBaseWeight c r m))

theorem radioWeight_eq_spec (c : Nat) (r : Option Nat) (m : ℚ) :
    radioWeight c r m = specClampedWeight c r m := by
  unfold radioWeight specClampedWeight specBaseWeight
  cases r <;> simp only [] <;> split_ifs <;> ring_nf

theorem masterWeight_eq_specBase (c : Nat) (r : Option Nat) (m : ℚ) :
    masterWeight c r m = specBaseWeight c r m := by
  unfold masterWeight specBaseWeight
  cases r <;> simp only [] <;> split_ifs <;> ring_nf

/-- C1 -- The claim states that BOTH the radio path and the master-curation
path clamp the computed weight to [0, 10] before the random draw.  The
master path performs no clamp: at overplay count 3, top rank 10 and
modifier 1 it computes 10 - 9 - 5 = -4, which lies outside [0, 10]. -/
theorem c1_counterexample :
    masterWeight 3 (some 10) 1 = -4 ∧ ¬ (0 ≤ masterWeight 3 (some 10) 1) := by
  constructor
  · unfold masterWeight; norm_num
  · unfold masterWeight; norm_num

/-- C1 (amended) -- Both paths compute the same base deduction formula
(start at 10; subtract 5m/7m/9m for overplay count 1/2/>=3; additionally
subtract 5m/4m/3m for top rank < 50 / < 100 / < 200, both deductions
applying when both conditions hold).  The radio path clamps the result to
[0, 10] before the random draw; the master-curation path uses the
unclamped value. -/
theorem c1_amended (c : Nat) (r : Option Nat) (m : ℚ) :
    masterWeight c r m = specBaseWeight c r m ∧
    radioWeight c r m = max 0 (min 10 (masterWeight c r m)) := by
  refine ⟨masterWeight_eq_specBase c r m, ?_⟩
  rw [masterWeight_eq_specBase, radioWeight_eq_spec]
  rfl

/-! ## The resilient remote-call executor (`SpotifyConnection._withRetry`) -/

/-- The outcome of one attempt of a remote operation, as classified by
`_withRetry`'s exception handlers: success with a value, a timeout, a
`SpotifyException` carrying an HTTP status (and, for 429, an optional
Retry-After header), or any other unexpected exception. -/
inductive Att (α : Type) where
  | ok (v : α)
  | timeoutErr
  | spotifyErr (status : Nat) (retryAfter : Option Nat)
  | otherErr
  deriving DecidableEq, Repr

/-- What `_withRetry` ultimately does: return a value, re-raise the last
caught attempt error, or raise the generic
`Exception("Failed after 5 attempts")`, which carries no underlying
error. -/
inductive RetryResult (α : Type) where
  | ok (v : α)
  | raised (e : Att α)
  | exhausted
  deriving DecidableEq, Repr

/-- One pass of the `while retryCount < maxRetries` loop of `_withRetry`,
driven by a script of attempt outcomes.  Returns the final outcome, the
list of `time.sleep` durations performed (in order), and the number of
`apiCallCount` increments. -/
def withRetryGo {α : Type} : Nat → List (Att α) → RetryResult α × List Nat × Nat
  | retryCount, attempts =>
    if 5 ≤ retryCount then (.exhausted, [], 0)
    else
      match attempts with
      | [] => (.exhausted, [], 0)
      | a :: rest =>
        match a with
        | .ok v => (.ok v, [], 1)
        | .timeoutErr =>
          if 5 ≤ retryCount + 1 then (.raised .timeoutErr, [], 0)
          else withRetryGo (retryCount + 1) rest
        | .spotifyErr s ra =>
          if s = 429 then
            let r := withRetryGo (retryCount + 1) rest
            (r.1, ra.getD 1 :: r.2.1, r.2.2)
          else if s = 503 then
            let r := withRetryGo (retryCount + 1) rest
            (r.1, 5 :: r.2.1, r.2.2)
          else if 500 ≤ s then
            let r := withRetryGo (retryCount + 1) rest
            (r.1, 10 :: r.2.1, r.2.2)
          else
            if 5 ≤ retryCount + 1 then (.raised (.spotifyErr s ra), [], 0)
            else withRetryGo (retryCount + 1) rest
        | .otherErr =>
          if 5 ≤ retryCount + 1 then (.raised .otherErr, [], 0)
          else withRetryGo (retryCount + 1) rest

/-- Entry point: `_withRetry` starts with `retryCount = 0`. -/
def withRetry {α : Type} (attempts : List (Att α)) : RetryResult α × List Nat × Nat :=
  withRetryGo 0 attempts

/-- An attempt outcome that raises an exception. -/
def attFails {α : Type} : Att α → Bool
  | .ok _ => false
  | _ => true

/-- The failure classes whose handler sleeps and loops back WITHOUT a
`retryCount >= maxRetries` check: 429, 503 and other 5xx statuses. -/
def sleepyFail {α : Type} : Att α → Bool
  | .spotifyErr s _ => s = 429 ∨ s = 503 ∨ 500 ≤ s
  | _ => false

/-- The `time.sleep` calls performed by the handler of one failed
attempt: `Retry-After` (default 1) for 429, 5s for 503, 10s for other
5xx, none otherwise. -/
def attSleep {α : Type} : Att α → List Nat
  | .spotifyErr s ra =>
    if s = 429 then [ra.getD 1]
    else if s = 503 then [5]
    else if 500 ≤ s then [10]
    else []
  | _ => []

lemma withRetryGo_step {α : Type} (rc : Nat) (h : rc + 1 < 5) (a : Att α)
    (ha : attFails a = true) (rest : List (Att α)) :
    withRetryGo rc (a :: rest) =
      ((withRetryGo (rc + 1) rest).1,
       attSleep a ++ (withRetryGo (rc + 1) rest).2.1,
       (withRetryGo (rc + 1) rest).2.2) := by
  have hrc : ¬ 5 ≤ rc := by omega
  have hrc1 : ¬ 5 ≤ rc + 1 := by omega
  cases a with
  | ok v => simp [attFails] at ha
  | timeoutErr =>
    rw [withRetryGo.eq_def]
    simp [hrc, hrc1, attSleep]
  | spotifyErr s ra =>
    rw [withRetryGo.eq_def]
    by_cases h429 : s = 429
    · simp [hrc, h429, attSleep]
    · by_cases h503 : s = 503
      · simp [hrc, h429, h503, attSleep]
      · by_cases h5xx : 500 ≤ s
        · simp [hrc, h429, h503, h5xx, attSleep]
        · simp [hrc, hrc1, h429, h503, h5xx, attSleep]
  | otherErr =>
    rw [withRetryGo.eq_def]
    simp [hrc, hrc1, attSleep]

lemma withRetryGo_five {α : Type} (rest : List (Att α)) :
    withRetryGo 5 rest = (.exhausted, [], 0) := by
  rw [withRetryGo.eq_def]; simp

lemma withRetryGo_last {α : Type} (a : Att α) (ha : attFails a = true)
    (rest : List (Att α)) :
    (withRetryGo 4 (a :: rest)).1 =
      (if sleepyFail a then RetryResult.exhausted else .raised a) := by
  cases a with
  | ok v => simp [attFails] at ha
  | timeoutErr =>
    rw [withRetryGo.eq_def]
    simp [sleepyFail]
  | spotifyErr s ra =>
    rw [withRetryGo.eq_def]
    by_cases h429 : s = 429
    · simp [h429, sleepyFail, withRetryGo_five]
    · by_cases h503 : s = 503
      · simp [h429, h503, sleepyFail, withRetryGo_five]
      · by_cases h5xx : 500 ≤ s
        · simp [h429, h503, h5xx, sleepyFail, withRetryGo_five]
        · simp [h429, h503, h5xx, sleepyFail]
  | otherErr =>
    rw [withRetryGo.eq_def]
    simp [sleepyFail]

/-- C3 -- The claim says that when all 5 attempts fail, the wrapper's
failure carries the last underlying error for EVERY failure
classification.  Refuted: five rate-limited (429) failures drive the loop
to its `while` guard, and the code then raises the generic
`Exception("Failed after 5 attempts")`, which carries no underlying
error. -/
theorem c3_counterexample :
    (withRetry (List.replicate 5 (Att.spotifyErr 429 (some 2) : Att Nat))).1 =
      RetryResult.exhausted ∧
    (withRetry (List.replicate 5 (Att.spotifyErr 429 (some 2) : Att Nat))).1 ≠
      RetryResult.raised (.spotifyErr 429 (some 2)) := by
  constructor
  · rfl
  · decide

/-- C3 (amended) -- When all 5 attempts of a logical call fail, the
outcome depends on the classification of the fifth (last) failure: a
timeout, client-error (non-429 4xx) or unexpected failure is re-raised as
the last underlying error; a rate-limited (429), service-unavailable
(503) or server-error (other 5xx) failure makes the loop exit through its
guard and raise the generic retries-exhausted error, which carries no
underlying error. -/
theorem c3_amended (a1 a2 a3 a4 a5 : Att Nat)
    (h1 : attFails a1 = true) (h2 : attFails a2 = true)
    (h3 : attFails a3 = true) (h4 : attFails a4 = true)
    (h5 : attFails a5 = true) :
    (withRetry [a1, a2, a3, a4, a5]).1 =
      (if sleepyFail a5 then RetryResult.exhausted else .raised a5) := by
  unfold withRetry
  rw [withRetryGo_step 0 (by omega) a1 h1, withRetryGo_step 1 (by omega) a2 h2,
      withRetryGo_step 2 (by omega) a3 h3, withRetryGo_step 3 (by omega) a4 h4]
  exact withRetryGo_last a5 h5 []

theorem c3_amended_witness :
    (withRetry [Att.timeoutErr, .timeoutErr, .timeoutErr, .timeoutErr,
                (.spotifyErr 400 none : Att Nat)]).1 =
      (if sleepyFail (Att.spotifyErr 400 none : Att Nat) then
         RetryResult.exhausted
       else .raised (.spotifyErr 400 none)) :=
  c3_amended _ _ _ _ _ rfl rfl rfl rfl rfl

/-- Number of `apiCallCount` increments a finished logical call implies:
one when it returned a value, zero otherwise. -/
def okIncrements {α : Type} : RetryResult α → Nat
  | .ok _ => 1
  | _ => 0

lemma withRetryGo_count {α : Type} (attempts : List (Att α)) : ∀ rc : Nat,
    (withRetryGo rc attempts).2.2 = okIncrements (withRetryGo rc attempts).1 := by
  induction attempts with
  | nil =>
    intro rc
    rw [withRetryGo.eq_def]
    by_cases hrc : 5 ≤ rc <;> simp [hrc, okIncrements]
  | cons a rest ih =>
    intro rc
    rw [withRetryGo.eq_def]
    by_cases hrc : 5 ≤ rc
    · simp [hrc, okIncrements]
    · simp only [if_neg hrc]
      cases a with
      | ok v => rfl
      | timeoutErr =>
        by_cases hcap : 5 ≤ rc + 1
        · simp [hcap, okIncrements]
        · simp [hcap, ih (rc + 1)]
      | spotifyErr s ra =>
        by_cases h429 : s = 429
        · simp [h429, ih (rc + 1)]
        · by_cases h503 : s = 503
          · simp [h429, h503, ih (rc + 1)]
          · by_cases h5xx : 500 ≤ s
            · simp [h429, h503, h5xx, ih (rc + 1)]
            · by_cases hcap : 5 ≤ rc + 1
              · simp [h429, h503, h5xx, hcap, okIncrements]
              · simp [h429, h503, h5xx, hcap, ih (rc + 1)]
      | otherErr =>
        by_cases hcap : 5 ≤ rc + 1
        · simp [hcap, okIncrements]
        · simp [hcap, ih (rc + 1)]

/-- C4 -- `apiCallCount` is incremented exactly once per logical call
that returns a value (only the successful attempt increments it), and not
at all by failed or retried attempts: in particular a call whose 5
attempts all fail performs 0 increments. -/
theorem c4_theorem :
    (∀ attempts : List (Att Nat),
      (withRetry attempts).2.2 = okIncrements (withRetry attempts).1) ∧
    (∀ a1 a2 a3 a4 a5 : Att Nat,
      attFails a1 = true → attFails a2 = true → attFails a3 = true →
      attFails a4 = true → attFails a5 = true →
      (withRetry [a1, a2, a3, a4, a5]).2.2 = 0) := by
  constructor
  · intro attempts
    unfold withRetry
    exact withRetryGo_count attempts 0
  · intro a1 a2 a3 a4 a5 h1 h2 h3 h4 h5
    unfold withRetry
    rw [withRetryGo_step 0 (by omega) a1 h1, withRetryGo_step 1 (by omega) a2 h2,
        withRetryGo_step 2 (by omega) a3 h3, withRetryGo_step 3 (by omega) a4 h4]
    simp only []
    rw [withRetryGo_count [a5] 4, withRetryGo_last a5 h5 []]
    split_ifs <;> rfl

theorem c4_witness :
    (withRetry [(Att.ok 7 : Att Nat)]).2.2 =
      okIncrements (withRetry [(Att.ok 7 : Att Nat)]).1 ∧
    (withRetry [(Att.otherErr : Att Nat), .otherErr, .otherErr, .otherErr,
                .otherErr]).2.2 = 0 :=
  ⟨c4_theorem.1 [Att.ok 7],
   c4_theorem.2 .otherErr .otherErr .otherErr .otherErr .otherErr
     rfl rfl rfl rfl rfl⟩

/-- C7 -- An attempt that fails rate-limited (HTTP 429) with Retry-After
`t` causes exactly one sleep of `t` (default 1 when the header is
absent), inserted before the remaining attempts, adds no other delay, and
still advances the shared 5-attempt counter (the continuation runs at
`retryCount + 1`). -/
theorem c7_theorem (rc : Nat) (hrc : rc < 5) (ra : Option Nat)
    (rest : List (Att Nat)) :
    withRetryGo rc (.spotifyErr 429 ra :: rest) =
      ((withRetryGo (rc + 1) rest).1,
       ra.getD 1 :: (withRetryGo (rc + 1) rest).2.1,
       (withRetryGo (rc + 1) rest).2.2) := by
  rw [withRetryGo.eq_def]
  simp [Nat.not_le.mpr hrc]

theorem c7_witness :
    withRetryGo 0 [Att.spotifyErr 429 (some 2), (.ok 7 : Att Nat)] =
      ((withRetryGo 1 [(Att.ok 7 : Att Nat)]).1,
       2 :: (withRetryGo 1 [(Att.ok 7 : Att Nat)]).2.1,
       (withRetryGo 1 [(Att.ok 7 : Att Nat)]).2.2) :=
  c7_theorem 0 (by omega) (some 2) [Att.ok 7]

/-! ## Paginated fetching -/

/-- Split a list into consecutive chunks of `P` elements (the last chunk
may be shorter); the fuel argument only drives termination. -/
def chunksGo {α : Type} (P : Nat) : Nat → List α → List (List α)
  | 0, _ => []
  | _, [] => []
  | fuel + 1, l => l.take P :: chunksGo P fuel (l.drop P)

/-- How the remote source pages an `N`-item collection with page size
`P`. -/
def chunks {α : Type} (P : Nat) (l : List α) : List (List α) :=
  chunksGo P l.length l

/-- The page sequence the service serves for `getPlaylistTracks`: an
empty collection is served as a single page with no items and no `next`
continuation. -/
def servePages {α : Type} (P : Nat) (l : List α) : List (List α) :=
  if l.isEmpty then [[]] else chunks P l

/-- The `while results:` loop of `SpotifyConnection.getPlaylistTracks`:
collect the current page's items; request the next page while a `next`
continuation is present (i.e. while further pages remain), else break.
Returns the collected items and the number of page requests. -/
def playlistLoop {α : Type} : List (List α) → List α × Nat
  | [] => ([], 0)
  | p :: rest =>
    if rest.isEmpty then (p, 1)
    else
      let r := playlistLoop rest
      (p ++ r.1, r.2 + 1)

/-- Model of `getPlaylistTracks` over an `l`-item playlist paged with
size `P` (the initial request is issued before the loop). -/
def getPlaylistTracksM {α : Type} (P : Nat) (l : List α) : List α × Nat :=
  playlistLoop (servePages P l)

/-- The `while True:` loop of `SpotifyConnection.getLikedTracks`: request
`limit=P` items at the current offset, stop when a page comes back with
no items, else collect them and advance the offset by the page length.
Returns the collected items and the number of page requests. -/
def likedLoopGo {α : Type} (l : List α) (P : Nat) : Nat → Nat → List α × Nat
  | _, 0 => ([], 0)
  | offset, fuel + 1 =>
    let page := (l.drop offset).take P
    if page.isEmpty then ([], 1)
    else
      let r := likedLoopGo l P (offset + page.length) fuel
      (page ++ r.1, r.2 + 1)

/-- Model of `getLikedTracks` over an `l`-item liked collection paged
with size `P`; fuel `l.length + 1` covers every reachable iteration. -/
def getLikedTracksM {α : Type} (P : Nat) (l : List α) : List α × Nat :=
  likedLoopGo l P 0 (l.length + 1)

lemma drop_take_len {α : Type} (P : Nat) (xs : List α) :
    xs.drop ((xs.take P).length) = xs.drop P := by
  rw [List.length_take]
  rcases le_total P xs.length with h | h
  · rw [min_eq_left h]
  · rw [min_eq_right h, List.drop_length, List.drop_eq_nil_of_le h]

lemma likedLoopGo_spec {α : Type} (l : List α) (P : Nat) (hP : 0 < P) :
    ∀ fuel offset, l.length - offset < fuel →
      likedLoopGo l P offset fuel =
        (l.drop offset, (l.length - offset + P - 1) / P + 1) := by
  intro fuel
  induction fuel with
  | zero => intro offset h; omega
  | succ fuel ih =>
    intro offset h
    rw [likedLoopGo]
    by_cases hpage : ((l.drop offset).take P).isEmpty
    · have hnil : (l.drop offset).take P = [] := by
        simpa [List.isEmpty_iff] using hpage
      have hdrop : l.drop offset = [] := by
        rcases (List.take_eq_nil_iff).1 hnil with h0 | h0
        · omega
        · exact h0
      have hrem : l.length - offset = 0 := by
        have hle := List.drop_eq_nil_iff.1 hdrop
        omega
      rw [hdrop, hrem]
      simp [Nat.div_eq_of_lt (show P - 1 < P by omega)]
    · have hne : (l.drop offset).take P ≠ [] := by
        simpa [List.isEmpty_iff] using hpage
      have hplen_pos : 0 < ((l.drop offset).take P).length :=
        List.length_pos.2 hne
      have hplen : ((l.drop offset).take P).length = min P (l.length - offset) := by
        rw [List.length_take, List.length_drop]
      have hoff : offset < l.length := by
        by_contra hcon
        exact hne (by rw [List.drop_eq_nil_of_le (by omega)]; simp)
      simp only [hpage, if_false]
      rw [ih (offset + ((l.drop offset).take P).length) (by omega)]
      have hitems :
          (l.drop offset).take P ++
            l.drop (offset + ((l.drop offset).take P).length) = l.drop offset := by
        have h1 : l.drop (offset + ((l.drop offset).take P).length) =
            (l.drop offset).drop ((l.drop offset).take P).length := by
          rw [List.drop_drop]
        rw [h1, drop_take_len, List.take_append_drop]
      have hcount :
          (l.length - (offset + ((l.drop offset).take P).length) + P - 1) / P + 1 + 1 =
            (l.length - offset + P - 1) / P + 1 := by
        rw [hplen]
        rcases le_total P (l.length - offset) with hle | hle
        · rw [min_eq_left hle]
          have hnum : l.length - offset + P - 1 =
              (l.length - (offset + P) + P - 1) + P := by omega
          rw [hnum, Nat.add_div_right _ hP]
        · rw [min_eq_right hle]
          have hrem0 : l.length - (offset + (l.length - offset)) = 0 := by omega
          rw [hrem0]
          have h1 : (0 + P - 1) / P = 0 := Nat.div_eq_of_lt (by omega)
          have h2 : (l.length - offset + P - 1) / P = 1 :=
            Nat.div_eq_of_lt_le (by omega) (by omega)
          rw [h1, h2]
      dsimp only
      rw [hitems, hcount]
      simp

lemma chunksGo_flatten {α : Type} (P : Nat) (hP : 0 < P) :
    ∀ fuel (l : List α), l.length ≤ fuel → (chunksGo P fuel l).flatten = l := by
  intro fuel
  induction fuel with
  | zero =>
    intro l h
    have : l = [] := List.eq_nil_of_length_eq_zero (by omega)
    subst this; rfl
  | succ fuel ih =>
    intro l h
    cases l with
    | nil => rfl
    | cons x xs =>
      rw [chunksGo]
      · rw [List.flatten_cons,
            ih ((x :: xs).drop P)
              (by
                have hlen : (x :: xs).length = xs.length + 1 := rfl
                rw [List.length_drop]
                omega),
            List.take_append_drop]
      · intro hcon; cases hcon

lemma chunksGo_length {α : Type} (P : Nat) (hP : 0 < P) :
    ∀ fuel (l : List α), l.length ≤ fuel →
      (chunksGo P fuel l).length = (l.length + P - 1) / P := by
  intro fuel
  have h0 : (P - 1) / P = 0 := Nat.div_eq_of_lt (by omega)
  induction fuel with
  | zero =>
    intro l h
    have : l = [] := List.eq_nil_of_length_eq_zero (by omega)
    subst this
    simp [chunksGo, h0]
  | succ fuel ih =>
    intro l h
    cases l with
    | nil => simp [chunksGo, h0]
    | cons x xs =>
      have hlen : (x :: xs).length = xs.length + 1 := rfl
      rw [chunksGo]
      · rw [List.length_cons,
            ih ((x :: xs).drop P) (by rw [List.length_drop]; omega),
            List.length_drop]
        rcases le_total P (x :: xs).length with hle | hle
        · have hnum : (x :: xs).length + P - 1 =
              ((x :: xs).length - P + P - 1) + P := by omega
          rw [hnum, Nat.add_div_right _ hP]
        · have hrem0 : (x :: xs).length - P = 0 := by omega
          have h2 : ((x :: xs).length + P - 1) / P = 1 :=
            Nat.div_eq_of_lt_le (by omega) (by omega)
          rw [hrem0, h2]
          simp [h0]
      · intro hcon; cases hcon

lemma playlistLoop_spec {α : Type} :
    ∀ pages : List (List α), pages ≠ [] →
      playlistLoop pages = (pages.flatten, pages.length) := by
  intro pages
  induction pages with
  | nil => intro h; exact absurd rfl h
  | cons p rest ih =>
    intro _
    rw [playlistLoop]
    cases rest with
    | nil => simp
    | cons q rs =>
      rw [ih (by simp)]
      simp

/-- C5 -- The claim says both paginated fetches make exactly
ceil(N/P) page requests.  Refuted: `getLikedTracks` only stops when a
page comes back empty, so over 1 item with page size 50 it makes 2
requests, not ceil(1/50) = 1. -/
theorem c5_counterexample :
    (getLikedTracksM 50 ["a"]).2 = 2 ∧ (1 + 50 - 1) / 50 = 1 ∧ (2 : Nat) ≠ 1 := by
  refine ⟨rfl, by norm_num, by norm_num⟩

/-- C5 (amended) -- Given no failures and page size P > 0 over N items:
`getPlaylistTracks` (cursor-based: stop when no `next` continuation)
makes exactly max(1, ceil(N/P)) page requests, and `getLikedTracks`
(offset-based: stop on an empty page) makes exactly ceil(N/P) + 1 page
requests; both return exactly the N items in page order. -/
theorem c5_amended {α : Type} (l : List α) (P : Nat) (hP : 0 < P) :
    getPlaylistTracksM P l = (l, max 1 ((l.length + P - 1) / P)) ∧
    getLikedTracksM P l = (l, (l.length + P - 1) / P + 1) := by
  constructor
  · unfold getPlaylistTracksM servePages
    by_cases hl : l.isEmpty
    · have hnil : l = [] := by simpa [List.isEmpty_iff] using hl
      subst hnil
      have h0 : (P - 1) / P = 0 := Nat.div_eq_of_lt (by omega)
      simp [playlistLoop, h0]
    · have hlne : l ≠ [] := by simpa [List.isEmpty_iff] using hl
      have hlpos : 0 < l.length := List.length_pos.2 hlne
      have hge : 1 ≤ (l.length + P - 1) / P :=
        (Nat.one_le_div_iff hP).2 (by omega)
      have hchne : chunks P l ≠ [] := by
        intro hcon
        have hcl := chunksGo_length P hP l.length l le_rfl
        rw [show chunksGo P l.length l = chunks P l from rfl, hcon] at hcl
        simp at hcl
        omega
      rw [if_neg hl, playlistLoop_spec (chunks P l) hchne]
      unfold chunks
      rw [chunksGo_flatten P hP l.length l le_rfl,
          chunksGo_length P hP l.length l le_rfl,
          max_eq_right hge]
  · unfold getLikedTracksM
    rw [likedLoopGo_spec l P hP (l.length + 1) 0 (by omega)]
    simp

theorem c5_witness :
    getPlaylistTracksM 2 ["a", "b", "c"] =
      (["a", "b", "c"], max 1 (((["a", "b", "c"] : List String).length + 2 - 1) / 2)) ∧
    getLikedTracksM 2 ["a", "b", "c"] =
      (["a", "b", "c"], ((["a", "b", "c"] : List String).length + 2 - 1) / 2 + 1) :=
  c5_amended ["a", "b", "c"] 2 (by omega)

/-! ## Bulk track-detail lookup (`SpotifyConnection.getTracksInfo`) -/

/-- Python dict assignment `info[k] = v`: overwrite in place if the key
is present, else append a new entry (insertion order preserved). -/
def dinsert {β : Type} (k : String) (v : β) (m : List (String × β)) : List (String × β) :=
  if m.any (fun p => p.1 == k) then
    m.map (fun p => if p.1 == k then (k, v) else p)
  else m ++ [(k, v)]

/-- The filter `[tid for tid in trackIds if tid and isinstance(tid, str)
and len(tid) > 0]`: `none` models `None`/non-string entries, `some ""`
an empty string. -/
def validIds (ids : List (Option String)) : List String :=
  ids.filterMap (fun o =>
    match o with
    | some s => if 0 < s.length then some s else none
    | none => none)

/-- Model of `getTracksInfo`: filter invalid ids, chunk into batches of 50, and
for each batch either skip it (batch-level failure, `failB` true at its
index) or store each returned track's metadata under its id.  `meta`
models the remote catalog's per-track metadata
(name, artistName, artistId). -/
def getTracksInfoM (meta : String → String × String × Option String)
    (failB : Nat → Bool) (ids : List (Option String)) :
    List (String × (String × String × Option String)) :=
  ((chunks 50 (validIds ids)).enum).foldl
    (fun info p =>
      if failB p.1 then info
      else p.2.foldl (fun acc tid => dinsert tid (meta tid) acc) info) []

lemma dinsert_fresh {β : Type} (k : String) (v : β) (m : List (String × β))
    (h : k ∉ m.map Prod.fst) : dinsert k v m = m ++ [(k, v)] := by
  unfold dinsert
  rw [if_neg]
  simp only [List.any_eq_true, beq_iff_eq, not_exists]
  intro p hp
  exact h (hp.2 ▸ List.mem_map_of_mem Prod.fst hp.1)

lemma foldInsert_fresh {β : Type} (f : String → β) :
    ∀ (b : List String) (acc : List (String × β)),
      (acc.map Prod.fst ++ b).Nodup →
      b.foldl (fun i tid => dinsert tid (f tid) i) acc =
        acc ++ b.map (fun tid => (tid, f tid)) := by
  intro b
  induction b with
  | nil => intro acc _; simp
  | cons tid b' ih =>
    intro acc hnd
    have htid : tid ∉ acc.map Prod.fst := by
      intro hmem
      have := List.disjoint_of_nodup_append hnd
      exact this hmem (by simp)
    rw [List.foldl_cons, dinsert_fresh tid (f tid) acc htid]
    rw [ih (acc ++ [(tid, f tid)])
      (by
        simpa [List.append_assoc] using hnd)]
    simp

lemma foldBatches_spec (meta : String → String × String × Option String)
    (failB : Nat → Bool) :
    ∀ (bs : List (List String)) (k : Nat)
      (acc : List (String × (String × String × Option String))),
      (acc.map Prod.fst ++ bs.flatten).Nodup →
      (List.enumFrom k bs).foldl
        (fun info p =>
          if failB p.1 then info
          else p.2.foldl (fun a tid => dinsert tid (meta tid) a) info) acc =
        acc ++
          (((List.enumFrom k bs).filter (fun p => !failB p.1)).map
            (fun p => p.2.map (fun tid => (tid, meta tid)))).flatten := by
  intro bs
  induction bs with
  | nil => intro k acc _; simp
  | cons b bs ih =>
    intro k acc hnd
    rw [List.enumFrom_cons, List.foldl_cons]
    by_cases hf : failB k
    · have hnd' : (acc.map Prod.fst ++ bs.flatten).Nodup := by
        refine List.Nodup.sublist ?_ hnd
        refine List.Sublist.append_left ?_ _
        rw [List.flatten_cons]
        exact List.sublist_append_right b bs.flatten
      rw [if_pos hf, ih (k + 1) acc hnd']
      rw [List.filter_cons]
      simp [hf]
    · have hnd1 : (acc.map Prod.fst ++ b).Nodup := by
        refine List.Nodup.sublist ?_ hnd
        refine List.Sublist.append_left ?_ _
        rw [List.flatten_cons]
        exact List.sublist_append_left b bs.flatten
      rw [if_neg hf, foldInsert_fresh meta b acc hnd1]
      have hkeys : (acc ++ b.map (fun tid => (tid, meta tid))).map Prod.fst =
          acc.map Prod.fst ++ b := by
        rw [List.map_append, List.map_map]
        simp [Function.comp_def]
      have hnd2 :
          ((acc ++ b.map (fun tid => (tid, meta tid))).map Prod.fst ++
            bs.flatten).Nodup := by
        rw [hkeys, List.append_assoc]
        rw [List.flatten_cons] at hnd
        exact hnd
      rw [ih (k + 1) _ hnd2]
      rw [List.filter_cons]
      simp [hf]

lemma getTracksInfoM_spec (meta : String → String × String × Option String)
    (failB : Nat → Bool) (ids : List (Option String))
    (hnd : (validIds ids).Nodup) :
    getTracksInfoM meta failB ids =
      (((chunks 50 (validIds ids)).enum.filter (fun p => !failB p.1)).map
        (fun p => p.2.map (fun tid => (tid, meta tid)))).flatten := by
  unfold getTracksInfoM List.enum
  rw [foldBatches_spec meta failB (chunks 50 (validIds ids)) 0 []
    (by
      rw [show chunks 50 (validIds ids) = chunksGo 50 (validIds ids).length (validIds ids) from rfl]
      rw [chunksGo_flatten 50 (by omega) (validIds ids).length (validIds ids) le_rfl]
      simpa using hnd)]
  simp

lemma flattenMapLen {β : Type} (f : String → β) :
    ∀ (bs : List (List String)) (k : Nat),
      ((List.enumFrom k bs).map (fun p => p.2.map f)).flatten.length =
        bs.flatten.length := by
  intro bs
  induction bs with
  | nil => intro k; rfl
  | cons b bs ih =>
    intro k
    rw [List.enumFrom_cons, List.map_cons, List.flatten_cons, List.length_append,
        List.flatten_cons, List.length_append, List.length_map, ih (k + 1)]

lemma filterKeepAll {j m : Nat} (h : j < m) (bs : List (List String)) :
    (List.enumFrom m bs).filter (fun p => !(p.1 == j)) = List.enumFrom m bs := by
  apply List.filter_eq_self.2
  intro p hp
  obtain ⟨i, x⟩ := p
  have hge := (List.mem_enumFrom hp).1
  simp only [Bool.not_eq_true']
  simp only [beq_eq_false_iff_ne, ne_eq]
  omega

lemma len_le_flatten :
    ∀ (bs : List (List String)) (j : Nat) (hj : j < bs.length),
      (bs.get ⟨j, hj⟩).length ≤ bs.flatten.length := by
  intro bs
  induction bs with
  | nil => intro j hj; simp at hj
  | cons b bs ih =>
    intro j hj
    cases j with
    | zero => simp
    | succ j =>
      have := ih j (by simpa using hj)
      simp only [List.get_cons_succ, List.flatten_cons, List.length_append]
      omega

lemma goodLen {β : Type} (f : String → β) :
    ∀ (bs : List (List String)) (k j : Nat) (hj : j < bs.length),
      (((List.enumFrom k bs).filter (fun p => !(p.1 == k + j))).map
        (fun p => p.2.map f)).flatten.length =
        bs.flatten.length - (bs.get ⟨j, hj⟩).length := by
  intro bs
  induction bs with
  | nil => intro k j hj; simp at hj
  | cons b bs ih =>
    intro k j hj
    rw [List.enumFrom_cons, List.filter_cons]
    cases j with
    | zero =>
      simp only [Nat.add_zero]
      have hk : (!((k, b).1 == k)) = false := by simp
      rw [hk]
      simp only [Bool.false_eq_true, if_false]
      rw [filterKeepAll (show k < k + 1 by omega) bs, flattenMapLen]
      simp
    | succ j =>
      have hk : (!((k, b).1 == k + (j + 1))) = true := by
        simp only [Bool.not_eq_true', beq_eq_false_iff_ne, ne_eq]
        omega
      rw [hk]
      simp only [if_true]
      have harith : k + (j + 1) = (k + 1) + j := by omega
      rw [List.map_cons, List.flatten_cons, List.length_append, harith,
          ih (k + 1) j (by simpa using hj)]
      have hle := len_le_flatten bs j (by simpa using hj)
      simp only [List.get_cons_succ, List.flatten_cons, List.length_append,
        List.length_map]
      omega

lemma chunksGo_le {α : Type} (P : Nat) :
    ∀ fuel (l : List α) c, c ∈ chunksGo P fuel l → c.length ≤ P := by
  intro fuel
  induction fuel with
  | zero => intro l c hc; simp [chunksGo] at hc
  | succ fuel ih =>
    intro l c hc
    cases l with
    | nil => simp [chunksGo] at hc
    | cons x xs =>
      rw [chunksGo] at hc
      · rcases List.mem_cons.1 hc with h | h
        · rw [h, List.length_take]; omega
        · exact ih _ c h
      · intro hcon; cases hcon

/-- Fifty-one track ids whose first batch of 50 contains a duplicated id
("t0" appears twice); the 51st id lands alone in a second batch. -/
def dup51 : List (Option String) :=
  (List.range 51).map (fun n => some (if n = 1 then "t0" else "t" ++ toString n))

set_option maxRecDepth 100000

/-- C6 -- The claim's result-size equation (valid ids minus ids of the
failed batch) fails when a SUCCEEDING batch contains a duplicated id:
over 51 valid ids with "t0" duplicated inside the first batch, failing
only the second batch (1 id) yields 49 mapping entries, not 51 - 1 = 50,
because the metadata dict coalesces the duplicate. -/
theorem c6_counterexample :
    (validIds dup51).length = 51 ∧
    (chunks 50 (validIds dup51)).length = 2 ∧
    ((chunks 50 (validIds dup51)).getD 1 []).length = 1 ∧
    (getTracksInfoM (fun tid => (tid, "artist", none)) (fun i => i == 1)
      dup51).length = 49 ∧
    (49 : Nat) ≠ 51 - 1 := by
  refine ⟨by decide, by decide, by decide, by decide, by norm_num⟩

/-- C6 (amended) -- Assuming the valid ids are pairwise distinct:
null/empty ids are filtered out before batching, the valid ids are
chunked into batches of at most 50, and when exactly the batch at index
`b` fails, the returned mapping contains the correct metadata for every
id of every other batch and has size (number of valid ids) minus (number
of ids in the failed batch). -/
theorem c6_amended (meta : String → String × String × Option String)
    (ids : List (Option String)) (b : Nat)
    (hnd : (validIds ids).Nodup)
    (hb : b < (chunks 50 (validIds ids)).length) :
    (∀ s ∈ validIds ids, 0 < s.length ∧ some s ∈ ids) ∧
    (∀ c ∈ chunks 50 (validIds ids), c.length ≤ 50) ∧
    (getTracksInfoM meta (fun i => i == b) ids).length =
      (validIds ids).length - ((chunks 50 (validIds ids)).get ⟨b, hb⟩).length ∧
    (∀ p ∈ (chunks 50 (validIds ids)).enum, p.1 ≠ b →
      ∀ tid ∈ p.2, (tid, meta tid) ∈ getTracksInfoM meta (fun i => i == b) ids) := by
  have hflat : (chunks 50 (validIds ids)).flatten = validIds ids :=
    chunksGo_flatten 50 (by omega) (validIds ids).length (validIds ids) le_rfl
  have hspec := getTracksInfoM_spec meta (fun i => i == b) ids hnd
  refine ⟨?_, ?_, ?_, ?_⟩
  · intro s hs
    rcases List.mem_filterMap.1 hs with ⟨o, ho, heq⟩
    cases o with
    | none => simp at heq
    | some t =>
      dsimp only [] at heq
      by_cases ht : 0 < t.length
      · rw [if_pos ht] at heq
        cases heq
        exact ⟨ht, ho⟩
      · rw [if_neg ht] at heq
        cases heq
  · intro c hc
    exact chunksGo_le 50 (validIds ids).length (validIds ids) c hc
  · rw [hspec]
    have hzero : (fun p : Nat × List String => !(p.1 == b)) =
        (fun p : Nat × List String => !(p.1 == 0 + b)) := by
      simp
    rw [show (chunks 50 (validIds ids)).enum =
        List.enumFrom 0 (chunks 50 (validIds ids)) from rfl]
    rw [hzero,
        goodLen (fun tid => (tid, meta tid)) (chunks 50 (validIds ids)) 0 b hb,
        hflat]
  · intro p hp hpb tid htid
    rw [hspec]
    apply List.mem_flatten.2
    refine ⟨p.2.map (fun tid => (tid, meta tid)), ?_, ?_⟩
    · apply List.mem_map_of_mem
      apply List.mem_filter.2
      refine ⟨hp, ?_⟩
      simp [hpb]
    · exact List.mem_map_of_mem _ htid

/-- Concrete ids for the C6 witness: one valid pair of distinct ids in a
single batch, which is then the (only) failing batch. -/
def idsW : List (Option String) := [some "a", none, some "", some "b"]

/-- Concrete metadata source for the C6 witness. -/
def metaW : String → String × String × Option String := fun tid => (tid, "x", none)

theorem c6_witness :
    (∀ s ∈ validIds idsW, 0 < s.length ∧ some s ∈ idsW) ∧
    (∀ c ∈ chunks 50 (validIds idsW), c.length ≤ 50) ∧
    (getTracksInfoM metaW (fun i => i == 0) idsW).length =
      (validIds idsW).length -
        ((chunks 50 (validIds idsW)).get ⟨0, by decide⟩).length ∧
    (∀ p ∈ (chunks 50 (validIds idsW)).enum, p.1 ≠ 0 →
      ∀ tid ∈ p.2,
        (tid, metaW tid) ∈ getTracksInfoM metaW (fun i => i == 0) idsW) :=
  c6_amended metaW idsW 0 (by decide) (by decide)

/-! ## Title exclusion, blacklist matching, radio and master selection -/

/-- Whether `needle` is a prefix of `hay` (character lists). -/
def startsWithChars : List Char → List Char → Bool
  | [], _ => true
  | _ :: _, [] => false
  | a :: as, b :: bs => a == b && startsWithChars as bs

/-- Python's `needle in hay` on strings: contiguous substring
occurrence. -/
def occursIn (needle : List Char) : List Char → Bool
  | [] => startsWithChars needle []
  | hay@(_ :: rest) => startsWithChars needle hay || occursIn needle rest

/-- Model of `SpotifyConnection.isTitleExcluded`: empty word list or empty title
never excludes; otherwise any excluded word occurring (case-insensitive)
inside the title excludes. -/
def isTitleExcluded (title : String) (excludedWords : List String) : Bool :=
  if excludedWords.isEmpty || title.isEmpty then false
  else excludedWords.any
    (fun word =>
      occursIn (word.toList.map Char.toLower) (title.toList.map Char.toLower))

/-- The blacklist check used by both `generateRadio` and the master loop:
feature flag on, and some blacklisted name is a case-insensitive
substring of the artist name. -/
def artistIsBlacklisted (blacklistOn : Bool) (blNames : List String)
    (artistName : String) : Bool :=
  blacklistOn && blNames.any
    (fun b =>
      occursIn (b.toList.map Char.toLower) (artistName.toList.map Char.toLower))

/-- A track from an artist's top-tracks listing. -/
structure TopTrack where
  id : String
  name : String
  deriving DecidableEq, Repr

/-- The per-track filter of `generateRadio`'s top-results loop: skip a
track whose title contains an excluded word; when `removeByWeight` is on,
keep it only when the uniform draw is below `weight / 10`. -/
def radioTrackEligible (excludedWords : List String) (removeByWeight : Bool)
    (tmCounts : String → Nat) (topPos : String → Option Nat) (m : ℚ)
    (draw : String → ℚ) (t : TopTrack) : Bool :=
  if isTitleExcluded t.name excludedWords then false
  else if removeByWeight then
    decide (draw t.id < radioWeight (tmCounts t.id) (topPos t.id) m / 10)
  else true

/-- The per-artist final selection of `generateRadio` (lines 514-521):
take the whole eligible pool when `min(radioArtistSongs, pool)` reaches
the pool size, else `random.sample` that many. -/
def selectSongs (sample : List String → Nat → List String)
    (radioArtistSongs : Nat) (eligibleSongs : List String) : List String :=
  if eligibleSongs.isEmpty then []
  else
    let numToSelect := min radioArtistSongs eligibleSongs.length
    if eligibleSongs.length ≤ numToSelect then eligibleSongs
    else sample eligibleSongs numToSelect

/-- One chosen artist's contribution to the radio track list: nothing
when the artist is blacklisted, else the selection from the filtered
eligible pool of its top tracks. -/
def radioArtistContribution (blacklistOn : Bool) (blNames : List String)
    (artistName : String) (topResults : List TopTrack)
    (excludedWords : List String) (removeByWeight : Bool)
    (tmCounts : String → Nat) (topPos : String → Option Nat) (m : ℚ)
    (draw : String → ℚ) (sample : List String → Nat → List String)
    (radioArtistSongs : Nat) : List String :=
  if artistIsBlacklisted blacklistOn blNames artistName then []
  else
    selectSongs sample radioArtistSongs
      ((topResults.filter
        (radioTrackEligible excludedWords removeByWeight tmCounts topPos m
          draw)).map TopTrack.id)

/-- The artist draw `random.sample(artistMap.keys(), min(numArtists, len(artistMap)))`. -/
def chooseArtists (sample : List String → Nat → List String)
    (numArtists : Nat) (artists : List String) : List String :=
  sample artists (min numArtists artists.length)

/-- The distinct artist ids of the resolved master playlist metadata
(entries `tid -> (name, artistName, artistId)`); entries with a falsy
(missing or empty) artist id are skipped, as in the `artistMap` build. -/
def availableArtists
    (masterInfo : List (String × String × String × Option String)) :
    List String :=
  (masterInfo.filterMap
    (fun e =>
      match e.2.2.2 with
      | some artistId => if 0 < artistId.length then some artistId else none
      | none => none)).dedup

/-- The contract of `random.sample(population, k)` for `k ≤ |population|`:
`k` elements drawn without replacement, so the result has length `k`,
draws from the population, and repeats no element when the population has
none.  (Uniformity of the distribution is the library's guarantee and has
no finite refutation; it is not modelled.) -/
def SampleOk (sample : List String → Nat → List String) : Prop :=
  ∀ l n, n ≤ l.length →
    (sample l n).length = n ∧ (∀ x ∈ sample l n, x ∈ l) ∧
    (l.Nodup → (sample l n).Nodup)

/-- The artist-overplay scan of the master loop (lines 733-736): sum the
overplay counts of every resolved track whose artist id matches. -/
def artistOverplayCount
    (allInfo : List (String × String × String × Option String))
    (tooMuchList : List String) (artistId : String) : Nat :=
  allInfo.foldl
    (fun acc e =>
      if e.2.2.2 == some artistId && decide (0 < tooMuchList.count e.1) then
        acc + tooMuchList.count e.1
      else acc) 0

/-- Lookup of `allInfo[tid]` as an optional value. -/
def lookupInfo (allInfo : List (String × String × String × Option String))
    (tid : String) : Option (String × String × Option String) :=
  (allInfo.find? (fun e => e.1 == tid)).map Prod.snd

/-- The complete master-loop weight for one track (lines 711-743): base
deductions (unclamped), then the artist-overplay deduction when the
feature is on, the track resolves in `allInfo`, and its artist id is in
`artistTooMuch`. -/
def masterFullWeight (artistOn : Bool)
    (allInfo : List (String × String × String × Option String))
    (artistTooMuch : List String) (tooMuchList : List String)
    (topPos : String → Option Nat) (m : ℚ) (tid : String) : ℚ :=
  let w := masterWeight (tooMuchList.count tid) (topPos tid) m
  match lookupInfo allInfo tid with
  | none => w
  | some info =>
    if artistOn then
      match info.2.2 with
      | none => w
      | some artistId =>
        if artistId ∈ artistTooMuch then
          let c := artistOverplayCount allInfo tooMuchList artistId
          if 6 ≤ c then w - 3 * m
          else if 3 ≤ c then w - 2 * m
          else w
        else w
    else w

/-- One iteration of the master curation loop over a `trackMap` entry
`(tid, name, artist)`: blacklist short-circuit, then
`random.random() < weight / 10`. -/
def masterTrackIncluded (blacklistOn : Bool) (blNames : List String)
    (artistOn : Bool)
    (allInfo : List (String × String × String × Option String))
    (artistTooMuch : List String) (tooMuchList : List String)
    (topPos : String → Option Nat) (m : ℚ) (draw : String → ℚ)
    (entry : String × String × String) : Bool :=
  if artistIsBlacklisted blacklistOn blNames entry.2.2 then false
  else
    decide (draw entry.1 <
      masterFullWeight artistOn allInfo artistTooMuch tooMuchList topPos m
        entry.1 / 10)

/-- The `selected` list the master loop accumulates. -/
def masterSelect (blacklistOn : Bool) (blNames : List String)
    (artistOn : Bool)
    (allInfo : List (String × String × String × Option String))
    (artistTooMuch : List String) (tooMuchList : List String)
    (topPos : String → Option Nat) (m : ℚ) (draw : String → ℚ)
    (entries : List (String × String × String)) : List String :=
  (entries.filter
    (masterTrackIncluded blacklistOn blNames artistOn allInfo artistTooMuch
      tooMuchList topPos m draw)).map Prod.fst

/-- The re-keying of resolved tracks in `main`:
`f"{name} - {artist}"`. -/
def mkKey (name artist : String) : String := name ++ " - " ++ artist

/-- The dict comprehension building `trackMap`: each resolved entry
`tid -> (name, artist, _)` is stored under key `mkKey name artist`, so a
later entry overwrites an earlier one with the same key. -/
def buildTrackMap
    (allInfo : List (String × String × String × Option String)) :
    List (String × (String × String × String)) :=
  allInfo.foldl
    (fun m e => dinsert (mkKey e.2.1 e.2.2.1) (e.1, e.2.1, e.2.2.1) m) []

/-- C2 -- The claim says a title containing an excluded word excludes the
track in BOTH radio generation and master curation.  Refuted: the master
curation loop never consults `isTitleExcluded`; with excluded word "bad",
the track "bad song" (weight 10, draw 0) is selected for master. -/
theorem c2_counterexample :
    isTitleExcluded "bad song" ["bad"] = true ∧
    masterSelect false [] false [("t1", "bad song", "Artist", none)] [] []
      (fun _ => none) 1 (fun _ => 0) [("t1", "bad song", "Artist")] =
      ["t1"] := by
  refine ⟨by decide, ?_⟩
  have hw : masterFullWeight false [("t1", "bad song", "Artist", none)] [] []
      (fun _ => none) 1 "t1" = 10 := by
    unfold masterFullWeight lookupInfo
    simp [List.find?, masterWeight]
  have hinc : masterTrackIncluded false [] false
      [("t1", "bad song", "Artist", none)] [] [] (fun _ => none) 1
      (fun _ => 0) ("t1", "bad song", "Artist") = true := by
    unfold masterTrackIncluded
    simp [artistIsBlacklisted]
    rw [hw]
    norm_num
  unfold masterSelect
  rw [List.filter_cons]
  simp [hinc]

/-- C2 (amended) -- Exclusions that hold unconditionally (for every
weight, modifier and draw): in radio generation, a title containing an
excluded word makes the track ineligible, and a blacklisted artist
contributes no tracks at all; in master curation, a track whose artist
name matches the blacklist is never included.  Master curation applies no
title-exclusion check. -/
theorem c2_amended :
    (∀ (words : List String) (rbw : Bool) (tm : String → Nat)
       (tp : String → Option Nat) (m : ℚ) (dr : String → ℚ) (t : TopTrack),
      isTitleExcluded t.name words = true →
      radioTrackEligible words rbw tm tp m dr t = false) ∧
    (∀ (bOn : Bool) (bl : List String) (artistName : String)
       (tops : List TopTrack) (words : List String) (rbw : Bool)
       (tm : String → Nat) (tp : String → Option Nat) (m : ℚ)
       (dr : String → ℚ) (s : List String → Nat → List String) (cnt : Nat),
      artistIsBlacklisted bOn bl artistName = true →
      radioArtistContribution bOn bl artistName tops words rbw tm tp m dr s
        cnt = []) ∧
    (∀ (bOn : Bool) (bl : List String) (aOn : Bool)
       (info : List (String × String × String × Option String))
       (atm tml : List String) (tp : String → Option Nat) (m : ℚ)
       (dr : String → ℚ) (entry : String × String × String),
      artistIsBlacklisted bOn bl entry.2.2 = true →
      masterTrackIncluded bOn bl aOn info atm tml tp m dr entry = false) := by
  refine ⟨?_, ?_, ?_⟩
  · intro words rbw tm tp m dr t ht
    unfold radioTrackEligible
    rw [if_pos ht]
  · intro bOn bl artistName tops words rbw tm tp m dr s cnt hb
    unfold radioArtistContribution
    rw [if_pos hb]
  · intro bOn bl aOn info atm tml tp m dr entry hb
    unfold masterTrackIncluded
    rw [if_pos hb]

theorem c2_witness :
    radioTrackEligible ["bad"] false (fun _ => 0) (fun _ => none) 1
      (fun _ => 0) ⟨"t1", "bad song"⟩ = false ∧
    radioArtistContribution true ["art"] "Bad Artist" [] [] false
      (fun _ => 0) (fun _ => none) 1 (fun _ => 0) (fun l n => l.take n) 10 =
      [] ∧
    masterTrackIncluded true ["art"] false [] [] [] (fun _ => none) 1
      (fun _ => 0) ("t1", "s", "Bad Artist") = false :=
  ⟨c2_amended.1 ["bad"] false (fun _ => 0) (fun _ => none) 1 (fun _ => 0)
      ⟨"t1", "bad song"⟩ (by decide),
   c2_amended.2.1 true ["art"] "Bad Artist" [] [] false (fun _ => 0)
      (fun _ => none) 1 (fun _ => 0) (fun l n => l.take n) 10 (by decide),
   c2_amended.2.2 true ["art"] false [] [] [] (fun _ => none) 1 (fun _ => 0)
      ("t1", "s", "Bad Artist") (by decide)⟩

/-- C8 -- For every uniform draw in [0, 1): a track with overplay count 3
and top rank 10 at modifier 1 has radio weight max(0, 10 - 9 - 5) = 0 and
is never included on either path (the master path's unclamped -4 also
never admits a draw), while a track with no overplay record and no
top-rank entry has weight 10 on both paths and is always included. -/
theorem c8_theorem (d : ℚ) (h0 : 0 ≤ d) (h1 : d < 1) :
    radioWeight 3 (some 10) 1 = 0 ∧
    radioTrackEligible [] true (fun _ => 3) (fun _ => some 10) 1 (fun _ => d)
      ⟨"A", "Song A"⟩ = false ∧
    masterTrackIncluded false [] false [] [] ["A", "A", "A"]
      (fun _ => some 10) 1 (fun _ => d) ("A", "Song A", "X") = false ∧
    radioWeight 0 none 1 = 10 ∧ masterWeight 0 none 1 = 10 ∧
    radioTrackEligible [] true (fun _ => 0) (fun _ => none) 1 (fun _ => d)
      ⟨"B", "Song B"⟩ = true ∧
    masterTrackIncluded false [] false [] [] [] (fun _ => none) 1
      (fun _ => d) ("B", "Song B", "X") = true := by
  have hw0 : radioWeight 3 (some 10) 1 = 0 := by unfold radioWeight; norm_num
  have hwm : masterWeight 3 (some 10) 1 = -4 := by unfold masterWeight; norm_num
  have hw10 : radioWeight 0 none 1 = 10 := by unfold radioWeight; norm_num
  have hm10 : masterWeight 0 none 1 = 10 := by unfold masterWeight; norm_num
  have hcount : (["A", "A", "A"] : List String).count "A" = 3 := by decide
  refine ⟨hw0, ?_, ?_, hw10, hm10, ?_, ?_⟩
  · have ht : isTitleExcluded "Song A" [] = false := by decide
    unfold radioTrackEligible
    simp [ht, hw0]
    linarith
  · have hfw : masterFullWeight false [] [] ["A", "A", "A"]
        (fun _ => some 10) 1 "A" = -4 := by
      unfold masterFullWeight lookupInfo
      simp [List.find?, hcount, hwm]
    unfold masterTrackIncluded
    simp [artistIsBlacklisted, hfw]
    linarith
  · have ht : isTitleExcluded "Song B" [] = false := by decide
    unfold radioTrackEligible
    simp [ht, hw10]
    linarith
  · have hfw : masterFullWeight false [] [] [] (fun _ => none) 1 "B" = 10 := by
      unfold masterFullWeight lookupInfo
      simp [List.find?, List.count, hm10]
    unfold masterTrackIncluded
    simp [artistIsBlacklisted, hfw]
    linarith

theorem c8_witness :
    radioWeight 3 (some 10) 1 = 0 ∧
    radioTrackEligible [] true (fun _ => 3) (fun _ => some 10) 1
      (fun _ => (1 : ℚ) / 2) ⟨"A", "Song A"⟩ = false ∧
    masterTrackIncluded false [] false [] [] ["A", "A", "A"]
      (fun _ => some 10) 1 (fun _ => (1 : ℚ) / 2) ("A", "Song A", "X") =
      false ∧
    radioWeight 0 none 1 = 10 ∧ masterWeight 0 none 1 = 10 ∧
    radioTrackEligible [] true (fun _ => 0) (fun _ => none) 1
      (fun _ => (1 : ℚ) / 2) ⟨"B", "Song B"⟩ = true ∧
    masterTrackIncluded false [] false [] [] [] (fun _ => none) 1
      (fun _ => (1 : ℚ) / 2) ("B", "Song B", "X") = true :=
  c8_theorem ((1 : ℚ) / 2) (by norm_num) (by norm_num)

/-- C9 -- With `random.sample` satisfying its without-replacement
contract: radio generation draws exactly
min(configured count, number of distinct artists of the master playlist)
pairwise-distinct artists from that pool, and each chosen non-blacklisted
artist's selection takes the whole eligible pool when it has at most the
configured per-artist count, else exactly that count of distinct tracks
from the pool.  (Uniformity is `random.sample`'s own guarantee, outside
the model.) -/
theorem c9_theorem (sample : List String → Nat → List String)
    (hs : SampleOk sample) (numArtists : Nat)
    (masterInfo : List (String × String × String × Option String)) :
    (chooseArtists sample numArtists (availableArtists masterInfo)).length =
      min numArtists (availableArtists masterInfo).length ∧
    (chooseArtists sample numArtists (availableArtists masterInfo)).Nodup ∧
    (∀ x ∈ chooseArtists sample numArtists (availableArtists masterInfo),
      x ∈ availableArtists masterInfo) ∧
    (∀ (cnt : Nat) (pool : List String),
      (pool.length ≤ cnt → selectSongs sample cnt pool = pool) ∧
      (cnt < pool.length →
        (selectSongs sample cnt pool).length = cnt ∧
        (∀ x ∈ selectSongs sample cnt pool, x ∈ pool) ∧
        (pool.Nodup → (selectSongs sample cnt pool).Nodup))) := by
  refine ⟨(hs _ _ (min_le_right _ _)).1,
    (hs _ _ (min_le_right _ _)).2.2 (List.nodup_dedup _),
    (hs _ _ (min_le_right _ _)).2.1, ?_⟩
  intro cnt pool
  constructor
  · intro hle
    unfold selectSongs
    by_cases hp : pool.isEmpty
    · rw [if_pos hp]
      exact ((List.isEmpty_iff).1 hp).symm
    · rw [if_neg hp]
      rw [min_eq_right hle, if_pos le_rfl]
  · intro hlt
    have hne : ¬ pool.isEmpty = true := by
      cases pool with
      | nil => simp at hlt
      | cons x xs => simp
    unfold selectSongs
    rw [if_neg hne, min_eq_left (le_of_lt hlt), if_neg (by omega)]
    exact hs pool cnt (le_of_lt hlt)

theorem c9_witness :
    (chooseArtists (fun l n => l.take n) 1
      (availableArtists
        [("t1", "n1", "x", some "A"), ("t2", "n2", "y", some "B")])).length =
      min 1
        (availableArtists
          [("t1", "n1", "x", some "A"),
           ("t2", "n2", "y", some "B")]).length ∧
    (chooseArtists (fun l n => l.take n) 1
      (availableArtists
        [("t1", "n1", "x", some "A"), ("t2", "n2", "y", some "B")])).Nodup ∧
    (∀ x ∈ chooseArtists (fun l n => l.take n) 1
        (availableArtists
          [("t1", "n1", "x", some "A"), ("t2", "n2", "y", some "B")]),
      x ∈ availableArtists
        [("t1", "n1", "x", some "A"), ("t2", "n2", "y", some "B")]) ∧
    (∀ (cnt : Nat) (pool : List String),
      (pool.length ≤ cnt →
        selectSongs (fun l n => l.take n) cnt pool = pool) ∧
      (cnt < pool.length →
        (selectSongs (fun l n => l.take n) cnt pool).length = cnt ∧
        (∀ x ∈ selectSongs (fun l n => l.take n) cnt pool, x ∈ pool) ∧
        (pool.Nodup →
          (selectSongs (fun l n => l.take n) cnt pool).Nodup))) :=
  c9_theorem (fun l n => l.take n)
    (by
      intro l n hn
      refine ⟨by rw [List.length_take]; omega, ?_, ?_⟩
      · intro x hx
        exact List.take_subset n l hx
      · intro hnd
        exact List.Nodup.sublist (List.take_sublist n l) hnd)
    1 [("t1", "n1", "x", some "A"), ("t2", "n2", "y", some "B")]

lemma dinsert_mem {β : Type} (k : String) (v : β) (m : List (String × β))
    (e : String × β) (he : e ∈ dinsert k v m) : e = (k, v) ∨ e ∈ m := by
  unfold dinsert at he
  by_cases hc : m.any (fun p => p.1 == k)
  · rw [if_pos hc] at he
    rcases List.mem_map.1 he with ⟨p, hp, hupd⟩
    by_cases hpk : p.1 == k
    · rw [if_pos hpk] at hupd
      exact Or.inl hupd.symm
    · rw [if_neg hpk] at hupd
      exact Or.inr (hupd ▸ hp)
  · rw [if_neg hc] at he
    rcases List.mem_append.1 he with h | h
    · exact Or.inr h
    · exact Or.inl (List.mem_singleton.1 h)

lemma dinsert_keys_nodup {β : Type} (k : String) (v : β)
    (m : List (String × β)) (h : (m.map Prod.fst).Nodup) :
    ((dinsert k v m).map Prod.fst).Nodup := by
  unfold dinsert
  by_cases hc : m.any (fun p => p.1 == k)
  · rw [if_pos hc]
    have hkeys : (m.map (fun p => if p.1 == k then (k, v) else p)).map Prod.fst =
        m.map Prod.fst := by
      rw [List.map_map]
      apply List.map_congr_left
      intro p hp
      by_cases hpk : p.1 == k
      · simp only [Function.comp_def, if_pos hpk]
        exact (beq_iff_eq.1 hpk).symm
      · simp only [Function.comp_def, if_neg hpk]
    rw [hkeys]
    exact h
  · rw [if_neg hc, List.map_append]
    refine List.Nodup.append h (List.nodup_singleton k) ?_
    intro x hx hxk
    have hxk' : x = k := by simpa using hxk
    rcases List.mem_map.1 hx with ⟨p, hp, hpx⟩
    have : m.any (fun p => p.1 == k) = true :=
      List.any_eq_true.2 ⟨p, hp, by rw [beq_iff_eq, hpx, hxk']⟩
    exact hc this

lemma buildTrackMap_keys_nodup
    (allInfo : List (String × String × String × Option String)) :
    ((buildTrackMap allInfo).map Prod.fst).Nodup := by
  unfold buildTrackMap
  suffices h : ∀ (l : List (String × String × String × Option String))
      (acc : List (String × (String × String × String))),
      (acc.map Prod.fst).Nodup →
      ((l.foldl
        (fun m e => dinsert (mkKey e.2.1 e.2.2.1) (e.1, e.2.1, e.2.2.1) m)
        acc).map Prod.fst).Nodup by
    exact h allInfo [] (by simp)
  intro l
  induction l with
  | nil => intro acc h; exact h
  | cons x l ih =>
    intro acc h
    exact ih _ (dinsert_keys_nodup _ _ _ h)

lemma buildTrackMap_key
    (allInfo : List (String × String × String × Option String)) :
    ∀ e ∈ buildTrackMap allInfo, e.1 = mkKey e.2.2.1 e.2.2.2 := by
  unfold buildTrackMap
  suffices h : ∀ (l : List (String × String × String × Option String))
      (acc : List (String × (String × String × String))),
      (∀ e ∈ acc, e.1 = mkKey e.2.2.1 e.2.2.2) →
      ∀ e ∈ l.foldl
        (fun m e => dinsert (mkKey e.2.1 e.2.2.1) (e.1, e.2.1, e.2.2.1) m)
        acc, e.1 = mkKey e.2.2.1 e.2.2.2 by
    exact h allInfo [] (by simp)
  intro l
  induction l with
  | nil => intro acc h; exact h
  | cons x l ih =>
    intro acc hacc
    apply ih
    intro e he
    rcases dinsert_mem _ _ _ e he with h | h
    · rw [h]
    · exact hacc e h

lemma filter_key_len {β : Type} :
    ∀ (m : List (String × β)), (m.map Prod.fst).Nodup → ∀ K : String,
      (m.filter (fun e => e.1 == K)).length ≤ 1 := by
  intro m
  induction m with
  | nil => intro _ K; simp
  | cons e m ih =>
    intro hnd K
    have hnd' : (m.map Prod.fst).Nodup := by
      rw [List.map_cons, List.nodup_cons] at hnd
      exact hnd.2
    have hheadnot : e.1 ∉ m.map Prod.fst := by
      rw [List.map_cons, List.nodup_cons] at hnd
      exact hnd.1
    rw [List.filter_cons]
    by_cases hek : e.1 == K
    · rw [if_pos hek]
      have hnone : ∀ x ∈ m, ¬(x.1 == K) = true := by
        intro x hx hxk
        apply hheadnot
        rw [beq_iff_eq] at hek hxk
        rw [hek, ← hxk]
        exact List.mem_map_of_mem Prod.fst hx
      rw [List.filter_eq_nil_iff.2 hnone]
      simp
    · rw [if_neg hek]
      exact ih hnd' K

lemma filter_len_mono {γ : Type} :
    ∀ (l : List γ) (p q : γ → Bool), (∀ e ∈ l, p e = true → q e = true) →
      (l.filter p).length ≤ (l.filter q).length := by
  intro l
  induction l with
  | nil => intro p q _; simp
  | cons x l ih =>
    intro p q h
    have hrec := ih p q (fun e he => h e (List.mem_cons_of_mem x he))
    rw [List.filter_cons, List.filter_cons]
    by_cases hp : p x
    · rw [if_pos hp, if_pos (h x (List.mem_cons_self x l) hp)]
      simpa using hrec
    · rw [if_neg hp]
      by_cases hq : q x
      · rw [if_pos hq]
        exact le_trans hrec (by simp)
      · rw [if_neg hq]
        exact hrec

/-- C10 -- `trackMap` re-keys resolved tracks by the string
"title - artist": among distinct track ids sharing the same title and
primary artist name, at most one survives into `trackMap` (so at most one
is ever weighed), and the master loop's selection holds at most one entry
per (title, artist name) pair, whatever the weights and draws. -/
theorem c10_theorem
    (allInfo : List (String × String × String × Option String))
    (n a tid1 tid2 : String) (hne : tid1 ≠ tid2)
    (bOn : Bool) (bl : List String) (aOn : Bool)
    (atm tml : List String) (tp : String → Option Nat) (m : ℚ)
    (dr : String → ℚ) :
    ¬((tid1, n, a) ∈ (buildTrackMap allInfo).map Prod.snd ∧
      (tid2, n, a) ∈ (buildTrackMap allInfo).map Prod.snd) ∧
    ((buildTrackMap allInfo).filter
      (fun e =>
        masterTrackIncluded bOn bl aOn allInfo atm tml tp m dr e.2 &&
        (e.2.2.1 == n) && (e.2.2.2 == a))).length ≤ 1 := by
  constructor
  · rintro ⟨h1, h2⟩
    rcases List.mem_map.1 h1 with ⟨e1, he1, hv1⟩
    rcases List.mem_map.1 h2 with ⟨e2, he2, hv2⟩
    have hk1 : e1.1 = mkKey n a := by
      have hinv := buildTrackMap_key allInfo e1 he1
      rw [hv1] at hinv
      exact hinv
    have hk2 : e2.1 = mkKey n a := by
      have hinv := buildTrackMap_key allInfo e2 he2
      rw [hv2] at hinv
      exact hinv
    have heq : e1 = e2 :=
      List.inj_on_of_nodup_map (buildTrackMap_keys_nodup allInfo) he1 he2
        (by rw [hk1, hk2])
    apply hne
    have hv : (tid1, n, a) = ((tid2, n, a) : String × String × String) := by
      rw [← hv1, ← hv2, heq]
    simpa using hv
  · refine le_trans
      (filter_len_mono (buildTrackMap allInfo) _
        (fun e => e.1 == mkKey n a) ?_)
      (filter_key_len (buildTrackMap allInfo)
        (buildTrackMap_keys_nodup allInfo) (mkKey n a))
    intro e he hp
    have hinv := buildTrackMap_key allInfo e he
    rw [Bool.and_eq_true, Bool.and_eq_true] at hp
    have hn : e.2.2.1 = n := beq_iff_eq.1 hp.1.2
    have ha : e.2.2.2 = a := beq_iff_eq.1 hp.2
    rw [beq_iff_eq, hinv, hn, ha]

theorem c10_witness :
    ¬((("t1", "s", "ar") : String × String × String) ∈
        (buildTrackMap
          [("t1", "s", "ar", none), ("t2", "s", "ar", none)]).map Prod.snd ∧
      (("t2", "s", "ar") : String × String × String) ∈
        (buildTrackMap
          [("t1", "s", "ar", none), ("t2", "s", "ar", none)]).map Prod.snd) ∧
    ((buildTrackMap
      [("t1", "s", "ar", none), ("t2", "s", "ar", none)]).filter
      (fun e =>
        masterTrackIncluded false [] false
          [("t1", "s", "ar", none), ("t2", "s", "ar", none)] [] []
          (fun _ => none) 1 (fun _ => 0) e.2 &&
        (e.2.2.1 == "s") && (e.2.2.2 == "ar"))).length ≤ 1 :=
  c10_theorem [("t1", "s", "ar", none), ("t2", "s", "ar", none)]
    "s" "ar" "t1" "t2" (by decide) false [] false [] [] (fun _ => none) 1
    (fun _ => 0)
